import Mathlib

/-!
Verification of the JuCity AI manager retrieval-and-grounding pipeline.

This file gives a shallow embedding, in Lean 4, of the parts of the
repository the frozen claims are about:

* `src/shared/intents.py` — keyword intent classification;
* `src/app/main.py` — the `/ask` pipeline: adaptive similarity
  thresholding, lexical reranking, router fallback;
* `src/app/rag/answerer.py` — context assembly with the mandatory
  contacts document;
* `src/app/rag/chunker.py` — heading-aware markdown chunking;
* `src/bot/state.py` — bounded session history;
* `src/bot/memory_store.py` — deep-merge profile patches;
* `src/bot/handlers.py` — `last_topic` post-processing and the
  topic carry-over branch.

Python strings are modelled as Lean `String` / `List Char`; the string
helpers below (`pyLower`, `pyStrip`, `substrOf`, …) model the exact
Python operations used by the code for ASCII and Cyrillic text (the
alphabet the repository works with).  Python floats carrying similarity
scores are modelled as rationals `ℚ`.  Filesystem reads are modelled by
an explicit map `String → Option String`, the external LLM generator by
an explicit function argument.
-/

namespace JuCity

/-! ## Python string primitives -/

/-- Python `str.lower` restricted to the alphabets the repository uses:
ASCII `A`–`Z` and Cyrillic `А`–`Я` / `Ё`. Other characters are kept. -/
def lowerChar (c : Char) : Char :=
  if 'A' ≤ c ∧ c ≤ 'Z' then Char.ofNat (c.toNat + 32)
  else if 0x410 ≤ c.toNat ∧ c.toNat ≤ 0x42F then Char.ofNat (c.toNat + 0x20)
  else if c.toNat = 0x401 then Char.ofNat 0x451
  else c

def pyLower (s : String) : String := ⟨s.data.map lowerChar⟩

/-- Whitespace characters recognised by Python `str.strip` / `str.split`
(ASCII part). -/
def isPySpace (c : Char) : Bool :=
  c = ' ' ∨ c = '\t' ∨ c = '\n' ∨ c = '\r' ∨ c.toNat = 11 ∨ c.toNat = 12

/-- Word characters for the Unicode-aware `\w` of Python `re`, restricted
to ASCII alphanumerics, the underscore and the Cyrillic block. -/
def isWordChar (c : Char) : Bool :=
  c.isAlphanum || c = '_' || (0x400 ≤ c.toNat && c.toNat ≤ 0x4FF)

def trimChars (cs : List Char) : List Char :=
  ((cs.dropWhile isPySpace).reverse.dropWhile isPySpace).reverse

/-- Python `str.strip()`. -/
def pyStrip (s : String) : String := ⟨trimChars s.data⟩

/-- Python substring test `needle in hay`. -/
def substrOf (needle : List Char) : List Char → Bool
  | [] => needle.isEmpty
  | c :: rest => needle.isPrefixOf (c :: rest) || substrOf needle rest

/-- `needle in hay` on Lean strings. -/
def strIn (needle hay : String) : Bool := substrOf needle.data hay.data

/-- One step of the scan for the regex `\bдр\b`: does `др` occur right at
the head of `cs`, with `prev` the character before (if any), at a word
boundary on both sides? -/
def drHere (prev : Option Char) (cs : List Char) : Bool :=
  match cs with
  | 'д' :: 'р' :: rest =>
      (match prev with | none => true | some p => !isWordChar p) &&
      (match rest with | [] => true | r :: _ => !isWordChar r)
  | _ => false

def hasBoundaryDrAux (prev : Option Char) : List Char → Bool
  | [] => drHere prev []
  | c :: rest => drHere prev (c :: rest) || hasBoundaryDrAux (some c) rest

/-- Python `re.search(r"\bдр\b", t) is not None`. -/
def hasBoundaryDr (t : String) : Bool := hasBoundaryDrAux none t.data

/-! ## `src/shared/intents.py` -/

/-- `INTENT_KEYWORDS` of `src/shared/intents.py`, in source order. -/
def INTENT_KEYWORDS : List (String × List String) :=
  [ ("park_facts",
      ["размер", "площад", "кв", "м²", "метр",
       "сколько аттракцион", "40", "большой парк", "маленький парк"]),
    ("socks",
      ["носки", "носок", "в носках", "купить носки",
       "без носков", "сменка", "сменная обувь"]),
    ("attractions",
      ["аттракционы", "что есть", "какие есть",
       "батут", "горки", "карусели", "лабиринт", "развлечения"]),
    ("contacts",
      ["контакт", "телефон", "позвон", "звон", "email", "почт"]),
    ("location",
      ["адрес", "как добраться", "где находится", "локаци"]),
    ("rules",
      ["правил", "запрещен"]),
    ("graduation",
      ["выпускн"]),
    ("birthday",
      ["день рождения", "праздник", "банкет", "комната", "анимация"]),
    ("hours",
      ["1 января", "31 декабря", "до скольки", "режим", "работаете"]),
    ("discounts",
      ["скидк", "льгот", "овз", "многодет"]),
    ("vr",
      ["vr"]),
    ("phygital",
      ["фиджитал"]),
    ("own_food_rules",
      ["торт", "сладкий"]),
    ("tickets_online",
      ["купить билет онлайн", "на сайте купить билет",
       "оплатить на сайте", "онлайн билет", "прям на сайте"]),
    ("prices",
      ["сколько стоит", "цена", "билет",
       "понедельник", "вторник", "сред", "четверг",
       "пятниц", "суббот", "воскрес"]) ]

/-- The keyword loop of `detect_intent`: first table entry one of whose
keywords occurs as a substring of the (already lowered) question. -/
def findIntent (q : String) : List (String × List String) → Option String
  | [] => none
  | (intent, keywords) :: rest =>
      if keywords.any (fun kw => strIn kw q) then some intent
      else findIntent q rest

/-- `detect_intent` of `src/shared/intents.py`. -/
def detect_intent (question : String) : String :=
  let q := pyLower question
  if hasBoundaryDr q then "birthday"
  else
    match findIntent q INTENT_KEYWORDS with
    | some intent => intent
    | none => "general"

/-! ## `src/app/main.py` — helpers -/

/-- `_detect_intent` of `src/app/main.py` (the `/ask` pipeline has its own
simpler keyword classifier). -/
def app_detect_intent (question : String) : String :=
  let q := pyLower question
  if strIn "1 января" q || strIn "31 декабря" q || strIn "до скольки" q ||
     strIn "режим" q || strIn "работаете" q then "hours"
  else if strIn "скидк" q || strIn "льгот" q || strIn "овз" q || strIn "многодет" q then
    "discounts"
  else if strIn "vr" q then "vr"
  else if strIn "фиджитал" q then "phygital"
  else if strIn "торт" q || strIn "сладкий" q then "own_food_rules"
  else if strIn "сколько стоит" q || strIn "цена" q || strIn "билет" q ||
          ["понедельник", "вторник", "сред", "четверг", "пятниц", "суббот",
           "воскрес"].any (fun day => strIn day q) then "prices"
  else "general"

/-- `_router_fallback_files` of `src/app/main.py`. -/
def router_fallback_files (intent : String) : List String :=
  if intent = "hours" then ["kb/nn/core/hours.md", "kb/nn/core/contacts.md"]
  else if intent = "prices" then ["kb/nn/tickets/prices.md", "kb/nn/core/contacts.md"]
  else if intent = "discounts" then ["kb/nn/tickets/discounts.md", "kb/nn/core/contacts.md"]
  else if intent = "vr" then ["kb/nn/services/vr.md", "kb/nn/core/contacts.md"]
  else if intent = "phygital" then ["kb/nn/services/phygital.md", "kb/nn/core/contacts.md"]
  else if intent = "own_food_rules" then
    ["kb/nn/food/own_food_rules.md", "kb/nn/parties/birthday.md", "kb/nn/core/contacts.md"]
  else ["kb/nn/core/contacts.md"]

/-- `_primary_file_for_intent` of `src/app/main.py`. -/
def primary_file_for_intent (intent : String) : Option String :=
  if intent = "hours" then some "kb/nn/core/hours.md"
  else if intent = "prices" then some "kb/nn/tickets/prices.md"
  else if intent = "discounts" then some "kb/nn/tickets/discounts.md"
  else if intent = "vr" then some "kb/nn/services/vr.md"
  else if intent = "phygital" then some "kb/nn/services/phygital.md"
  else if intent = "own_food_rules" then some "kb/nn/food/own_food_rules.md"
  else none

/-- Split a character list on Python whitespace, dropping empty pieces
(Python `str.split()` with no argument). -/
def splitWsAux (cur : List Char) (acc : List String) : List Char → List String
  | [] => if cur.isEmpty then acc.reverse else acc.reverse ++ [⟨cur.reverse⟩]
  | c :: rest =>
      if isPySpace c then
        if cur.isEmpty then splitWsAux [] acc rest
        else splitWsAux [] (⟨cur.reverse⟩ :: acc) rest
      else splitWsAux (c :: cur) acc rest

def splitWs (cs : List Char) : List String := splitWsAux [] [] cs

/-- Python `t.isdigit()` restricted to ASCII digits. -/
def isDigitTok (t : String) : Bool := !t.data.isEmpty && t.data.all Char.isDigit

/-- Python `t.lstrip("0") or "0"`. -/
def stripZeros (t : String) : String :=
  let d := t.data.dropWhile (· = '0')
  if d.isEmpty then "0" else ⟨d⟩

/-- Add a token to the (order-irrelevant) token set, modelled as a
duplicate-free list. -/
def addTok (acc : List String) (t : String) : List String :=
  if t ∈ acc then acc else acc ++ [t]

/-- `_tokenize_for_overlap` of `src/app/main.py`: lower-case, replace
non-word, non-space characters by spaces, split on whitespace, and
collect the tokens as a set; purely numeric tokens also register their
leading-zero-stripped alias. -/
def tokenize_for_overlap (text : String) : List String :=
  let cleaned := (pyLower text).data.map
    (fun c => if isWordChar c || isPySpace c then c else ' ')
  let toks := splitWs cleaned
  toks.foldl
    (fun acc t =>
      let acc := addTok acc t
      if isDigitTok t then addTok acc (stripZeros t) else acc)
    []

/-- Cardinality of the intersection of two token sets (`len(a & b)` on
Python sets); `qs` is duplicate-free by construction. -/
def sharedTokens (qs cs : List String) : Nat :=
  (qs.filter (fun t => t ∈ cs)).length

/-! ## `src/app/main.py` — data passed through the `/ask` pipeline -/

/-- The `metadata` dict attached to an indexed chunk. -/
structure Meta where
  file_path : String
  heading : Option String
  chunk_id : String
deriving DecidableEq

/-- One vector-store search hit (`{score, payload: {text, metadata}}`);
absent payload fields are `none`. -/
structure Hit where
  score : ℚ
  text : Option String
  metadata : Option Meta
deriving DecidableEq

/-- One entry of `candidates` in `ask` (`{score, text, metadata, file_path}`). -/
structure Cand where
  score : ℚ
  text : String
  metadata : Meta
  file_path : String
deriving DecidableEq

/-- A candidate together with its `rerank_score`. -/
structure Scored where
  cand : Cand
  rs : ℚ
deriving DecidableEq

/-- A context chunk handed to the generator (`{text, metadata}`). -/
structure CtxChunk where
  text : String
  metadata : Meta
deriving DecidableEq

/-- The observable outcome of one `/ask` request: the response fields
plus, for verification, whether the answer generator was invoked and
with which context chunks. -/
structure AskOut where
  answer : String
  sources : List String
  generatorCalled : Bool
  contextUsed : List CtxChunk
deriving DecidableEq

/-- The candidate-building loop of `ask`: drop hits missing text or
metadata (Python falsiness: `None` or the empty string). -/
def buildCandidates (hits : List Hit) : List Cand :=
  hits.filterMap (fun h =>
    match h.text, h.metadata with
    | some t, some m => if t = "" then none else some ⟨h.score, t, m, m.file_path⟩
    | _, _ => none)

/-! ## Stable descending sort

Python `list.sort(key=…, reverse=True)` is a stable descending sort.
Stable sorting has a unique result, so insertion sort below is an exact
model of it. -/

def insertDesc (key : α → ℚ) (x : α) : List α → List α
  | [] => [x]
  | y :: ys => if key x < key y then y :: insertDesc key x ys else x :: y :: ys

def sortDesc (key : α → ℚ) : List α → List α
  | [] => []
  | x :: xs => insertDesc key x (sortDesc key xs)

/-! ## `src/app/main.py` — adaptive thresholding (lines 205–222) -/

/-- `min_similarity` of `ask` (`0.25`, written via `mkRat` so that the
kernel can evaluate comparisons on concrete inputs). -/
def min_similarity : ℚ := mkRat 1 4

/-- Number of candidates whose score clears `t` — the
`sum(1 for c in candidates if …score >= t)` of `ask`. -/
def countGe (l : List Cand) (t : ℚ) : Nat :=
  (l.filter (fun c => t ≤ c.score)).length

/-- The distinct score levels, sorted descending
(`sorted({…scores…}, reverse=True)`). -/
def scoreLevels (l : List Cand) : List ℚ :=
  sortDesc id ((l.map (·.score)).eraseDups)

/-- The threshold loop of `ask`: each tried level is first clamped to
`max(min_similarity, t)`; the first clamped level keeping between 2 and
6 candidates is chosen, `none` when no level qualifies. -/
def chooseThreshold (l : List Cand) : List ℚ → Option ℚ
  | [] => none
  | t :: ts =>
      if 2 ≤ countGe l (max min_similarity t) ∧ countGe l (max min_similarity t) ≤ 6
      then some (max min_similarity t)
      else chooseThreshold l ts

/-- The adaptive-threshold filter of `ask` (lines 208–222): on a
non-empty candidate list, keep the candidates clearing the chosen
threshold, falling back to `min_similarity`. -/
def thresholdFilter (l : List Cand) : List Cand :=
  if l.isEmpty then []
  else
    let chosen := (chooseThreshold l (scoreLevels l ++ [min_similarity])).getD min_similarity
    l.filter (fun c => chosen ≤ c.score)

/-! ## `src/app/main.py` — lexical rerank (lines 224–232) -/

/-- The rerank bonus: `1.0 if (primary_file and file_path == primary_file)`. -/
def rerankBonus (pf : Option String) (c : Cand) : ℚ :=
  match pf with
  | some f => if c.file_path = f then 1 else 0
  | none => 0

/-- Attach `rerank_score` to every candidate (lines 226–230). -/
def rerankScored (q : String) (pf : Option String) (l : List Cand) : List Scored :=
  let qw := tokenize_for_overlap q
  l.map (fun c =>
    ⟨c, (sharedTokens qw (tokenize_for_overlap c.text) : ℚ)
          + (mkRat 1 10) * c.score + rerankBonus pf c⟩)

/-- Lines 226–231 of `ask`: score, then stable-sort descending by
`rerank_score`. -/
def rerankStep (q : String) (pf : Option String) (l : List Cand) : List Scored :=
  sortDesc (·.rs) (rerankScored q pf l)

/-! ## `src/app/main.py` — fallback context and the `ask` endpoint -/

def contactsPath : String := "kb/nn/core/contacts.md"

/-- `_read_contacts` of `src/app/main.py`, over an explicit filesystem. -/
def read_contacts (fs : String → Option String) : String :=
  match fs contactsPath with
  | none => ""
  | some raw => pyStrip raw

def fallbackBase : String := "Лучше уточнить у администратора/отдела праздников."

/-- `_fallback_answer_with_contacts` of `src/app/main.py`. -/
def fallback_answer_with_contacts (contacts : String) : String :=
  if contacts = "" then fallbackBase
  else fallbackBase ++ "\n\nКонтакты:\n" ++ contacts

/-- `_build_context_chunks_from_files` of `src/app/main.py`: read each
file, skip missing or blank ones. -/
def build_context_chunks_from_files (fs : String → Option String)
    (files : List String) : List CtxChunk :=
  files.filterMap (fun fp =>
    match fs fp with
    | none => none
    | some raw =>
        let t := pyStrip raw
        if t = "" then none
        else some ⟨t, ⟨fp, none, "router_fallback"⟩⟩)

/-- `_DIRECT_INTENT_FILES` of `src/app/rag/answerer.py`. -/
def direct_intent_files (intent : String) : List String :=
  if intent = "hours" then ["kb/nn/core/hours.md", "kb/nn/core/contacts.md"]
  else if intent = "prices" then
    ["kb/nn/tickets/prices.md", "kb/nn/tickets/free_entry.md", "kb/nn/core/contacts.md"]
  else if intent = "discounts" then
    ["kb/nn/tickets/discounts.md", "kb/nn/tickets/after_20.md", "kb/nn/core/contacts.md"]
  else if intent = "vr" then ["kb/nn/services/vr.md", "kb/nn/core/contacts.md"]
  else if intent = "phygital" then ["kb/nn/services/phygital.md", "kb/nn/core/contacts.md"]
  else if intent = "own_food_rules" then
    ["kb/nn/food/own_food_rules.md", "kb/nn/parties/birthday.md", "kb/nn/core/contacts.md"]
  else []

/-- `build_direct_context` of `src/app/rag/answerer.py`: whole files,
enumerated before skipping unreadable ones, tagged `FULLFILE`. -/
def build_direct_context (fs : String → Option String) (intent : String) : List CtxChunk :=
  ((direct_intent_files intent).enum).filterMap (fun p =>
    match fs p.2 with
    | none => none
    | some raw => some ⟨pyStrip raw, ⟨p.2, some "FULLFILE", "direct-" ++ toString p.1⟩⟩)

deriving instance DecidableEq for Except

/-- The `/ask` endpoint of `src/app/main.py` (`ask`, lines 166–253).

The external collaborators are explicit: `apiKey` is whether
`OPENAI_API_KEY` is configured, `fs` the document corpus, `gen` the
answer generator (returning `(answer, sources)`), and `hits` the result
of the vector-store search for the question's embedding (the
embedder/store success case; a store failure raises before this logic
runs). -/
def ask (apiKey : Bool) (fs : String → Option String)
    (gen : List CtxChunk → String → String × List String)
    (question : String) (hits : List Hit) : Except String AskOut :=
  if !apiKey then .error "OPENAI_API_KEY is required for /ask"
  else
    let intent := app_detect_intent question
    if intent ≠ "general" then
      let ctx := build_direct_context fs intent
      if ctx.isEmpty then .error "Direct context for intent is empty"
      else
        let r := gen ctx question
        .ok ⟨r.1, r.2, true, ctx⟩
    else
      let candidates := sortDesc (·.score) (buildCandidates hits)
      let filtered := (rerankStep question (primary_file_for_intent intent)
        (thresholdFilter candidates)).take 6
      if filtered.length < 2 then
        let fallbackFiles :=
          if intent ≠ "general" then router_fallback_files intent else [contactsPath]
        let ctx := build_context_chunks_from_files fs fallbackFiles
        let ctx :=
          if ctx.isEmpty then
            match candidates with
            | best :: _ => [⟨best.text, best.metadata⟩]
            | [] => []
          else ctx
        if ctx.isEmpty then
          let contacts := read_contacts fs
          .ok ⟨fallback_answer_with_contacts contacts,
               if contacts ≠ "" then [contactsPath] else [], false, []⟩
        else
          let r := gen ctx question
          .ok ⟨r.1, r.2, true, ctx⟩
      else
        let ctx := (filtered.take 6).map (fun s => (⟨s.cand.text, s.cand.metadata⟩ : CtxChunk))
        let r := gen ctx question
        .ok ⟨r.1, r.2, true, ctx⟩

/-! ## `src/app/rag/answerer.py` — `Answerer.answer` (lines 183–223) -/

/-- A context chunk in `Answerer.answer`'s flat shape
(`{file_path, heading, chunk_id, text}`). -/
structure AnsChunk where
  file_path : String
  heading : Option String
  chunk_id : String
  text : String
deriving DecidableEq

/-- The context assembly of `Answerer.answer`: keep hits with a file path
and text, then append the contacts document when it exists, is non-blank
and is not already present. -/
def answerer_context (fs : String → Option String) (hits : List Hit) : List AnsChunk :=
  let base := hits.filterMap (fun h =>
    let fp := match h.metadata with | none => "" | some m => m.file_path
    let heading := match h.metadata with | none => none | some m => m.heading
    let cid := match h.metadata with | none => "" | some m => m.chunk_id
    let t := match h.text with | none => "" | some t => t
    if fp = "" ∨ t = "" then none else some ⟨fp, heading, cid, t⟩)
  match fs contactsPath with
  | none => base
  | some raw =>
      let contacts := pyStrip raw
      if contacts = "" then base
      else if base.any (fun c => c.file_path = contactsPath) then base
      else base ++ [⟨contactsPath, some "Контакты", contactsPath ++ "::manual", contacts⟩]

/-- `Answerer.answer`: assemble the context, call the generator, return
the result together with the context that was passed (for observation). -/
def answerer_answer (fs : String → Option String)
    (gen : List AnsChunk → String → String × List String)
    (hits : List Hit) (question : String) : (String × List String) × List AnsChunk :=
  let ctx := answerer_context fs hits
  (gen ctx question, ctx)

/-! ## `src/app/rag/chunker.py` -/

structure Chunk where
  chunk_id : String
  file_path : String
  heading : Option String
  text : String
deriving DecidableEq

/-- Split on `'\n'` (the line structure `str.splitlines` gives for the
repository's newline-terminated markdown; a trailing empty line has no
effect on heading extraction). -/
def splitNl : List Char → List (List Char)
  | [] => [[]]
  | c :: rest =>
      if c = '\n' then [] :: splitNl rest
      else
        match splitNl rest with
        | l :: ls => (c :: l) :: ls
        | [] => [[c]]

/-- The line scan of `_extract_headings`: record `(offset, title)` for
every markdown heading line, offsets advancing by `len(line) + 1`. -/
def extractHeadingsAux (offset : Nat) : List (List Char) → List (Nat × String)
  | [] => []
  | line :: rest =>
      let stripped := trimChars line
      let here :=
        match stripped with
        | '#' :: _ =>
            let title := trimChars (stripped.dropWhile (· = '#'))
            if title.isEmpty then [] else [(offset, (⟨title⟩ : String))]
        | _ => []
      here ++ extractHeadingsAux (offset + line.length + 1) rest

/-- `_extract_headings` of `src/app/rag/chunker.py`. -/
def extract_headings (markdown : String) : List (Nat × String) :=
  extractHeadingsAux 0 (splitNl markdown.data)

/-- `_heading_for_offset` of `src/app/rag/chunker.py`: walk the headings,
remembering the title while `pos ≤ offset`, stopping at the first later
heading. -/
def heading_for_offset : List (Nat × String) → Nat → Option String
  | [], _ => none
  | (pos, title) :: rest, off =>
      if pos ≤ off then some ((heading_for_offset rest off).getD title)
      else none

/-- Python `text.rfind("\n", start, e)`, as an `Option`. -/
def rfindNl (text : List Char) (start e : Nat) : Option Nat :=
  (((text.take e).drop start).enum.filterMap
    (fun p => if p.2 = '\n' then some (start + p.1) else none)).getLast?

/-- The window-end computation of one iteration of `chunk_markdown`
(lines 55–60): cap at `start + chunk_size`, then retreat to the last
newline in the window when that newline lies beyond 60% of the window. -/
def chunkEnd (text : List Char) (chunkSize : Nat) (start : Nat) : Nat :=
  let e0 := min text.length (start + chunkSize)
  if e0 < text.length then
    match rfindNl text start e0 with
    | some nl => if start + chunkSize * 6 / 10 < nl then nl else e0
    | none => e0
  else e0

/-- The window walk of `chunk_markdown` (lines 52–71).  `fuel` bounds the
number of iterations; every terminating run of the Python loop is
reproduced exactly once the fuel exceeds the iteration count. -/
def chunkLoop (fp : String) (headings : List (Nat × String)) (text : List Char)
    (chunkSize overlap : Nat) : Nat → Nat → Nat → List Chunk
  | 0, _, _ => []
  | fuel + 1, start, idx =>
      if start < text.length then
        let e := chunkEnd text chunkSize start
        let c : Chunk :=
          ⟨fp ++ "::chunk::" ++ toString idx, fp,
           heading_for_offset headings start, ⟨trimChars ((text.take e).drop start)⟩⟩
        if text.length ≤ e then [c]
        else c :: chunkLoop fp headings text chunkSize overlap fuel (e - overlap) (idx + 1)
      else []

/-- The same walk instrumented with each chunk's start offset (the value
of `start` when the chunk is built), for stating heading properties. -/
def chunkLoopStarts (fp : String) (headings : List (Nat × String)) (text : List Char)
    (chunkSize overlap : Nat) : Nat → Nat → Nat → List (Nat × Chunk)
  | 0, _, _ => []
  | fuel + 1, start, idx =>
      if start < text.length then
        let e := chunkEnd text chunkSize start
        let c : Chunk :=
          ⟨fp ++ "::chunk::" ++ toString idx, fp,
           heading_for_offset headings start, ⟨trimChars ((text.take e).drop start)⟩⟩
        if text.length ≤ e then [(start, c)]
        else (start, c) :: chunkLoopStarts fp headings text chunkSize overlap fuel (e - overlap) (idx + 1)
      else []

/-- `chunk_markdown` of `src/app/rag/chunker.py`: headings come from the
original document, the walk runs over the stripped text. -/
def chunk_markdown (fp markdown : String)
    (chunkSize : Nat := 900) (overlap : Nat := 150) : List Chunk :=
  let text := trimChars markdown.data
  if text.isEmpty then []
  else chunkLoop fp (extract_headings markdown) text chunkSize overlap (text.length + 1) 0 0

/-- `chunk_markdown` instrumented with start offsets. -/
def chunk_markdown_starts (fp markdown : String)
    (chunkSize : Nat := 900) (overlap : Nat := 150) : List (Nat × Chunk) :=
  let text := trimChars markdown.data
  if text.isEmpty then []
  else chunkLoopStarts fp (extract_headings markdown) text chunkSize overlap (text.length + 1) 0 0

/-! ## `src/bot/state.py` — `append_history` -/

/-- `append_history` of `src/bot/state.py`, state-passing style: append,
then keep only the last `limit` entries (`history[-limit:]`). -/
def append_history (history : List String) (text : String) (limit : Nat := 6) : List String :=
  let h := history ++ [text]
  if limit < h.length then h.drop (h.length - limit) else h

/-! ## `src/bot/memory_store.py` — `_deep_merge`

Python dict values are modelled by the mutual inductive below: `JObj` is
an insertion-ordered association list with the key uniqueness Python
dicts guarantee (captured by `JObj.wfb`). -/

mutual
inductive JVal where
  | vnull : JVal
  | vbool : Bool → JVal
  | vint : Int → JVal
  | vstr : String → JVal
  | varr : JArr → JVal
  | vdict : JObj → JVal
deriving DecidableEq
inductive JArr where
  | anil : JArr
  | acons : JVal → JArr → JArr
deriving DecidableEq
inductive JObj where
  | onil : JObj
  | ocons : String → JVal → JObj → JObj
deriving DecidableEq
end

/-- `d[key]` lookup (`dict.get`). -/
def alget : JObj → String → Option JVal
  | .onil, _ => none
  | .ocons k v r, key => if k = key then some v else alget r key

/-- `key in d`. -/
def keymem : JObj → String → Bool
  | .onil, _ => false
  | .ocons k _ r, key => k = key || keymem r key

/-- `d[key] = v`: update in place when the key exists, append otherwise
(Python dict insertion-order semantics). -/
def setKey : JObj → String → JVal → JObj
  | .onil, key, v => .ocons key v .onil
  | .ocons k w r, key, v =>
      if k = key then .ocons k v r else .ocons k w (setKey r key v)

mutual
def JVal.size : JVal → Nat
  | .varr a => a.size + 1
  | .vdict d => d.size + 1
  | _ => 1
def JArr.size : JArr → Nat
  | .anil => 1
  | .acons v r => v.size + r.size + 1
def JObj.size : JObj → Nat
  | .onil => 1
  | .ocons _ v r => v.size + r.size + 1
end

mutual
/-- The merged value for one patch entry: recurse when both the patch
value and the current value are dicts, replace wholesale otherwise. -/
def mergeVal (old : Option JVal) (v : JVal) : JVal :=
  match v, old with
  | .vdict pd, some (.vdict md) => .vdict (deepMerge md pd)
  | _, _ => v
termination_by v.size
decreasing_by all_goals (simp [JVal.size, JObj.size]; try omega)
/-- `_deep_merge` of `src/bot/memory_store.py`: fold the patch entries
into a copy of the base. -/
def deepMerge : JObj → JObj → JObj
  | base, .onil => base
  | base, .ocons k v rest =>
      deepMerge (setKey base k (mergeVal (alget base k) v)) rest
termination_by _ p => p.size
decreasing_by all_goals (simp [JVal.size, JObj.size]; try omega)
end

mutual
/-- Key uniqueness at every dict level — the invariant Python dicts
guarantee for every profile and patch. -/
def JVal.wfb : JVal → Bool
  | .vdict d => d.wfb
  | _ => true
def JObj.wfb : JObj → Bool
  | .onil => true
  | .ocons k v r => !keymem r k && v.wfb && r.wfb
end

/-! ## `src/bot/handlers.py` -/

/-- Every name bound at module level in `src/bot/handlers.py`: the
`__future__` import, the imported names (lines 1–18) and the module's
own assignments and `def`s.  `re` is not among them. -/
def handlers_module_globals : List String :=
  ["annotations", "asyncio", "logging", "time", "httpx", "F", "Router",
   "Command", "CommandStart", "CallbackQuery", "Message", "ReplyKeyboardRemove",
   "get_settings", "menu_button_kb", "menu_inline_kb", "MemoryStore",
   "extract_profile_patch", "append_history", "get_user_ctx",
   "should_send_sticker", "sticker_id_map", "render_telegram_html",
   "router", "logger", "settings", "memory_store", "API_BASE",
   "_HEALTH_TTL", "_health_cache", "FALLBACK_ERROR", "DATABASE_INFO_REPLY",
   "TOPIC_QUESTIONS", "TOPIC_TEMPLATES", "_LAST_TOPIC_CONTEXT",
   "_INTENT_HINTS", "BOOKING_TRIGGERS", "_booking_hint_last",
   "_CAKE_FEE_SOURCES", "_PARTY_KEYWORDS", "_OTHER_TOPIC_TRIGGERS",
   "_update_last_topic", "_should_contextualize_cake_fee", "_has_intent_hints",
   "_has_party_keywords", "_maybe_strip_party_contact", "_is_database_question",
   "_should_send_booking_hint", "ensure_api_health", "_ask_api",
   "_maybe_send_sticker", "_send_long_message", "_build_request_payload",
   "_reply_with_answer", "_handle_topic", "start", "menu", "help_cmd",
   "prices_cmd", "discounts_cmd", "hours_cmd", "menu_callback",
   "topic_callback", "any_text"]

/-- `_INTENT_HINTS` of `src/bot/handlers.py` (lines 125–182). -/
def HANDLERS_INTENT_HINTS : List String :=
  ["1 января", "31 декабря", "до скольки", "режим", "работаете",
   "скидк", "льгот", "овз", "многодет", "vr", "фиджитал",
   "торт", "сладкий", "купить билет онлайн", "на сайте купить билет",
   "оплатить на сайте", "онлайн билет", "прям на сайте",
   "сколько стоит", "цена", "билет",
   "понедельник", "вторник", "сред", "четверг", "пятниц", "суббот", "воскрес",
   "носки", "носок", "сменка", "сменная обувь",
   "размер", "площад", "кв", "м²", "метр",
   "аттракционы", "что есть", "какие есть", "батут", "горки", "карусели",
   "лабиринт", "развлечения",
   "адрес", "как добраться", "контакт", "телефон", "правил",
   "выпускн", "день рождения", "праздник", "банкет", "комната", "анимация"]

/-- `_OTHER_TOPIC_TRIGGERS` of `src/bot/handlers.py`. -/
def HANDLERS_OTHER_TOPIC_TRIGGERS : List String :=
  ["сколько стоит", "цена", "билет", "скидк", "льгот", "овз", "многодет",
   "режим", "до скольки", "работаете", "адрес", "как добраться",
   "контакт", "vr", "фиджитал"]

/-- `_LAST_TOPIC_CONTEXT` of `src/bot/handlers.py` (lines 108–123). -/
def HANDLERS_LAST_TOPIC_CONTEXT : List (String × String) :=
  [("prices", "Контекст: обсуждаем цену билета."),
   ("discounts", "Контекст: обсуждаем скидки и льготы."),
   ("hours", "Контекст: обсуждаем режим работы парка."),
   ("location", "Контекст: обсуждаем адрес и как добраться."),
   ("rules", "Контекст: обсуждаем правила посещения."),
   ("birthday", "Контекст: обсуждаем день рождения в парке."),
   ("graduation", "Контекст: обсуждаем выпускные в парке."),
   ("vr", "Контекст: обсуждаем VR в парке."),
   ("phygital", "Контекст: обсуждаем фиджитал в парке."),
   ("contacts", "Контекст: обсуждаем контакты парка."),
   ("tickets_online", "Контекст: обсуждаем покупку билета онлайн."),
   ("park_facts", "Контекст: обсуждаем размер парка."),
   ("attractions", "Контекст: обсуждаем аттракционы и развлечения."),
   ("socks", "Контекст: обсуждаем правила про носки.")]

/-- `_update_last_topic` of `src/bot/handlers.py` (lines 226–276),
state-passing: the new `last_topic` given the cited sources and the
current value. -/
def update_last_topic (sources : List String) (cur : Option String) : Option String :=
  if sources.isEmpty then cur
  else if sources.contains "kb/nn/food/own_food_rules.md" then some "cake_fee"
  else if sources.contains "kb/nn/tickets/prices.md" then some "prices"
  else if sources.contains "kb/nn/tickets/discounts.md" then some "discounts"
  else if sources.contains "kb/nn/core/hours.md" then some "hours"
  else if sources.contains "kb/nn/core/location.md" then some "location"
  else if sources.contains "kb/nn/core/contacts.md" then some "contacts"
  else if sources.contains "kb/nn/rules/visit_rules.md" then some "rules"
  else if sources.contains "kb/nn/parties/birthday.md" then some "birthday"
  else if sources.contains "kb/nn/parties/graduation.md" then some "graduation"
  else if sources.contains "kb/nn/services/vr.md" then some "vr"
  else if sources.contains "kb/nn/services/phygital.md" then some "phygital"
  else if sources.contains "kb/nn/tickets/buy_online.md" then some "tickets_online"
  else if sources.contains "kb/nn/rules/socks.md" then some "socks"
  else if sources.contains "kb/nn/core/park_facts.md" then some "park_facts"
  else if sources.contains "kb/nn/park/attractions_overview.md" then some "attractions"
  else cur

/-- `_should_contextualize_cake_fee` of `src/bot/handlers.py`
(lines 278–286). -/
def should_contextualize_cake_fee (text : String) (lastTopic : Option String) : Bool :=
  if ¬(lastTopic = some "cake_fee" ∨ lastTopic = some "birthday") then false
  else
    let t := pyLower text
    if ¬(["1000", "за что", "почему"].any (fun tr => strIn tr t)) then false
    else if HANDLERS_OTHER_TOPIC_TRIGGERS.any (fun tr => strIn tr t) then false
    else true

/-- `_has_intent_hints` of `src/bot/handlers.py` (lines 289–293).  The
body evaluates `re.search`, which first resolves the module-global name
`re`; the lookup result depends on the module's global namespace, so the
function is modelled against an explicit list of bound globals and
returns a `NameError` when `re` is unbound. -/
def has_intent_hints (globalsList : List String) (text : String) : Except String Bool :=
  let t := pyLower text
  if globalsList.contains "re" then
    .ok (hasBoundaryDr t || HANDLERS_INTENT_HINTS.any (fun h => strIn h t))
  else .error "NameError: name re is not defined"

/-- Python truthiness of the optional `last_topic` string. -/
def lastTopicTruthy : Option String → Bool
  | none => false
  | some s => s ≠ ""

/-- The contextualization step of `any_text` (lines 667–684 of
`src/bot/handlers.py`): compute `context_question` from the question and
the session's `last_topic`, propagating any exception the branch
raises. -/
def context_question_step (globalsList : List String) (question : String)
    (lastTopic : Option String) : Except String String :=
  if should_contextualize_cake_fee question lastTopic then
    .ok ("Контекст: обсуждаем сладкий сбор за торт на празднике. Вопрос: " ++ question)
  else if lastTopicTruthy lastTopic then
    match has_intent_hints globalsList question with
    | .error e => .error e
    | .ok hints =>
        if hints then .ok question
        else
          match lastTopic with
          | some lt =>
              match HANDLERS_LAST_TOPIC_CONTEXT.find? (fun p => p.1 = lt) with
              | some p => .ok (p.2 ++ " Вопрос: " ++ question)
              | none => .ok question
          | none => .ok question
  else .ok question

/-! ## Session history (claim C8) -/

theorem append_history_eq_drop (h : List String) (t : String) :
    append_history h t = (h ++ [t]).drop (h.length + 1 - 6) := by
  simp only [append_history]
  split
  · congr 1
    simp
  · rename_i hc
    simp only [List.length_append, List.length_cons, List.length_nil] at hc
    have hz : h.length + 1 - 6 = 0 := by omega
    rw [hz, List.drop_zero]

theorem foldl_append_history (msgs : List String) :
    msgs.foldl (fun h t => append_history h t) [] = msgs.drop (msgs.length - 6) := by
  induction msgs using List.reverseRecOn with
  | nil => rfl
  | append_singleton ms t ih =>
      rw [List.foldl_append, List.foldl_cons, List.foldl_nil, ih, append_history_eq_drop]
      rw [← List.drop_append_of_le_length (show ms.length - 6 ≤ ms.length from by omega)]
      rw [List.drop_drop]
      simp only [List.length_append, List.length_cons, List.length_nil, List.length_drop]
      congr 1
      omega

/-- C8: for every sequence of appended utterances, the session history
produced by `append_history` never exceeds 6 entries and always consists
of precisely the most recent (at most) 6 utterances, in arrival order —
a FIFO window evicting the oldest entry first. -/
theorem history_bounded_fifo (msgs : List String) :
    (msgs.foldl (fun h t => append_history h t) []).length ≤ 6 ∧
    msgs.foldl (fun h t => append_history h t) [] = msgs.drop (msgs.length - 6) := by
  refine ⟨?_, foldl_append_history msgs⟩
  rw [foldl_append_history msgs, List.length_drop]
  omega

/-! ## `last_topic` post-processing (claim C4) -/

/-- The source-ordered `(file, topic)` table realised by the `if` chain
of `_update_last_topic`. -/
def CODE_TOPIC_TABLE : List (String × String) :=
  [("kb/nn/food/own_food_rules.md", "cake_fee"),
   ("kb/nn/tickets/prices.md", "prices"),
   ("kb/nn/tickets/discounts.md", "discounts"),
   ("kb/nn/core/hours.md", "hours"),
   ("kb/nn/core/location.md", "location"),
   ("kb/nn/core/contacts.md", "contacts"),
   ("kb/nn/rules/visit_rules.md", "rules"),
   ("kb/nn/parties/birthday.md", "birthday"),
   ("kb/nn/parties/graduation.md", "graduation"),
   ("kb/nn/services/vr.md", "vr"),
   ("kb/nn/services/phygital.md", "phygital"),
   ("kb/nn/tickets/buy_online.md", "tickets_online"),
   ("kb/nn/rules/socks.md", "socks"),
   ("kb/nn/core/park_facts.md", "park_facts"),
   ("kb/nn/park/attractions_overview.md", "attractions")]

/-- Modelled from the claim's words: the priority table the claim
asserts, facility facts first and prices last. -/
def CLAIM_TOPIC_TABLE : List (String × String) :=
  [("kb/nn/core/park_facts.md", "park_facts"),
   ("kb/nn/rules/socks.md", "socks"),
   ("kb/nn/park/attractions_overview.md", "attractions"),
   ("kb/nn/core/contacts.md", "contacts"),
   ("kb/nn/core/location.md", "location"),
   ("kb/nn/rules/visit_rules.md", "rules"),
   ("kb/nn/parties/graduation.md", "graduation"),
   ("kb/nn/parties/birthday.md", "birthday"),
   ("kb/nn/food/own_food_rules.md", "cake_fee"),
   ("kb/nn/core/hours.md", "hours"),
   ("kb/nn/tickets/discounts.md", "discounts"),
   ("kb/nn/services/vr.md", "vr"),
   ("kb/nn/services/phygital.md", "phygital"),
   ("kb/nn/tickets/buy_online.md", "tickets_online"),
   ("kb/nn/tickets/prices.md", "prices")]

/-- Modelled from the claim's words: set `last_topic` to the first
matching intent in the claimed priority order, leaving it unchanged when
no source matches. -/
def claim_update_last_topic (sources : List String) (cur : Option String) : Option String :=
  match CLAIM_TOPIC_TABLE.find? (fun p => sources.contains p.1) with
  | some p => some p.2
  | none => cur

/-- C4 counterexample: on sources naming both the facility-facts document
and the prices document, the code sets `last_topic = "prices"`, while the
claimed priority order (facility facts first) demands `"park_facts"`. -/
theorem update_last_topic_priority_cex :
    update_last_topic ["kb/nn/core/park_facts.md", "kb/nn/tickets/prices.md"] none
      = some "prices" ∧
    claim_update_last_topic ["kb/nn/core/park_facts.md", "kb/nn/tickets/prices.md"] none
      = some "park_facts" ∧
    some "prices" ≠ some "park_facts" := by
  refine ⟨by decide, by decide, by decide⟩

/-- C4 (amended): `_update_last_topic` sets `last_topic` to the first
matching intent in the fixed priority order cake-fee → prices →
discounts → hours → location → contacts → rules → birthday →
graduation → vr → phygital → online-tickets → socks → facility facts →
attractions, and leaves `last_topic` unchanged when no source matches
any table entry (in particular when the source list is empty). -/
theorem update_last_topic_eq_table (sources : List String) (cur : Option String) :
    update_last_topic sources cur
      = match CODE_TOPIC_TABLE.find? (fun p => sources.contains p.1) with
        | some p => some p.2
        | none => cur := by
  by_cases h0 : sources.isEmpty
  · have hs : sources = [] := List.isEmpty_iff.mp h0
    subst hs
    rfl
  by_cases h1 : "kb/nn/food/own_food_rules.md" ∈ sources
  · simp [update_last_topic, CODE_TOPIC_TABLE, List.find?, h0, h1]
  by_cases h2 : "kb/nn/tickets/prices.md" ∈ sources
  · simp [update_last_topic, CODE_TOPIC_TABLE, List.find?, h0, h1, h2]
  by_cases h3 : "kb/nn/tickets/discounts.md" ∈ sources
  · simp [update_last_topic, CODE_TOPIC_TABLE, List.find?, h0, h1, h2, h3]
  by_cases h4 : "kb/nn/core/hours.md" ∈ sources
  · simp [update_last_topic, CODE_TOPIC_TABLE, List.find?, h0, h1, h2, h3, h4]
  by_cases h5 : "kb/nn/core/location.md" ∈ sources
  · simp [update_last_topic, CODE_TOPIC_TABLE, List.find?, h0, h1, h2, h3, h4, h5]
  by_cases h6 : "kb/nn/core/contacts.md" ∈ sources
  · simp [update_last_topic, CODE_TOPIC_TABLE, List.find?, h0, h1, h2, h3, h4, h5, h6]
  by_cases h7 : "kb/nn/rules/visit_rules.md" ∈ sources
  · simp [update_last_topic, CODE_TOPIC_TABLE, List.find?, h0, h1, h2, h3, h4, h5, h6, h7]
  by_cases h8 : "kb/nn/parties/birthday.md" ∈ sources
  · simp [update_last_topic, CODE_TOPIC_TABLE, List.find?, h0, h1, h2, h3, h4, h5, h6, h7, h8]
  by_cases h9 : "kb/nn/parties/graduation.md" ∈ sources
  · simp [update_last_topic, CODE_TOPIC_TABLE, List.find?, h0, h1, h2, h3, h4, h5, h6, h7, h8, h9]
  by_cases h10 : "kb/nn/services/vr.md" ∈ sources
  · simp [update_last_topic, CODE_TOPIC_TABLE, List.find?, h0, h1, h2, h3, h4, h5, h6, h7, h8, h9, h10]
  by_cases h11 : "kb/nn/services/phygital.md" ∈ sources
  · simp [update_last_topic, CODE_TOPIC_TABLE, List.find?, h0, h1, h2, h3, h4, h5, h6, h7, h8, h9, h10, h11]
  by_cases h12 : "kb/nn/tickets/buy_online.md" ∈ sources
  · simp [update_last_topic, CODE_TOPIC_TABLE, List.find?, h0, h1, h2, h3, h4, h5, h6, h7, h8, h9, h10, h11, h12]
  by_cases h13 : "kb/nn/rules/socks.md" ∈ sources
  · simp [update_last_topic, CODE_TOPIC_TABLE, List.find?, h0, h1, h2, h3, h4, h5, h6, h7, h8, h9, h10, h11, h12, h13]
  by_cases h14 : "kb/nn/core/park_facts.md" ∈ sources
  · simp [update_last_topic, CODE_TOPIC_TABLE, List.find?, h0, h1, h2, h3, h4, h5, h6, h7, h8, h9, h10, h11, h12, h13, h14]
  by_cases h15 : "kb/nn/park/attractions_overview.md" ∈ sources
  · simp [update_last_topic, CODE_TOPIC_TABLE, List.find?, h0, h1, h2, h3, h4, h5, h6, h7, h8, h9, h10, h11, h12, h13, h14, h15]
  simp [update_last_topic, CODE_TOPIC_TABLE, List.find?, h0, h1, h2, h3, h4, h5, h6, h7, h8, h9, h10, h11, h12, h13, h14, h15]

/-! ## Intent classifier (claim C5) -/

theorem findIntent_eq_find? (q : String) (table : List (String × List String)) :
    findIntent q table
      = (table.find? (fun p => p.2.any (fun kw => strIn kw q))).map (·.1) := by
  induction table with
  | nil => rfl
  | cons p rest ih =>
      obtain ⟨intent, keywords⟩ := p
      simp only [findIntent, List.find?]
      by_cases h : keywords.any (fun kw => strIn kw q) <;> simp [h, ih]

/-- Modelled from the claim's words: lower-case the question and return
the first intent, in table order, one of whose trigger substrings occurs
in it, where the birthday abbreviation `др` counts as a birthday trigger
matched only at word boundaries; `"general"` when nothing matches. -/
def claim_detect_intent (question : String) : String :=
  let q := pyLower question
  match INTENT_KEYWORDS.find?
      (fun p => p.2.any (fun kw => strIn kw q) ||
        (p.1 = "birthday" && hasBoundaryDr q)) with
  | some p => p.1
  | none => "general"

/-- C5 counterexample: `"размер др"` contains the `park_facts` trigger
`"размер"`, and `park_facts` is the first table entry, so the claimed
table-order rule demands `"park_facts"`; the code's regex check for `др`
runs before the table and returns `"birthday"`. -/
theorem detect_intent_order_cex :
    detect_intent "размер др" = "birthday" ∧
    claim_detect_intent "размер др" = "park_facts" ∧
    ("birthday" : String) ≠ "park_facts" := by
  refine ⟨by decide, by decide, by decide⟩

/-- C5 (amended): `detect_intent` lower-cases the question, first checks
the word-boundary regex for the birthday abbreviation `др` (returning
`"birthday"` regardless of table order when it matches, and never
matching `др` embedded inside a word), and only then returns the first
intent in table order having a matching trigger substring, or
`"general"` when no trigger matches. -/
theorem detect_intent_characterisation (question : String) :
    detect_intent question
      = if hasBoundaryDr (pyLower question) then "birthday"
        else
          match (INTENT_KEYWORDS.find?
              (fun p => p.2.any (fun kw => strIn kw (pyLower question)))).map (·.1) with
          | some intent => intent
          | none => "general" := by
  simp only [detect_intent, findIntent_eq_find?]

/-! ## The topic carry-over branch and the missing `re` import (claim C10) -/

/-- C10: for every message from a session with a truthy `last_topic` that
does not satisfy the cake-fee contextualization rule, the carry-over
branch of `any_text` calls `_has_intent_hints`, whose body resolves the
module-global name `re`; `bot/handlers.py` never binds `re`, so the
branch raises `NameError` instead of computing the rewrite. -/
theorem carry_over_raises_name_error (question : String) (lastTopic : Option String)
    (htruthy : lastTopicTruthy lastTopic = true)
    (hcake : should_contextualize_cake_fee question lastTopic = false) :
    context_question_step handlers_module_globals question lastTopic
      = .error "NameError: name re is not defined" := by
  have hre : ("re" ∈ handlers_module_globals) = False := by
    simp only [eq_iff_iff, iff_false]
    decide
  simp [context_question_step, hcake, htruthy, has_intent_hints, hre]

theorem carry_over_raises_name_error_witness :
    lastTopicTruthy (some "prices") = true ∧
    should_contextualize_cake_fee "а в понедельник" (some "prices") = false ∧
    context_question_step handlers_module_globals "а в понедельник" (some "prices")
      = .error "NameError: name re is not defined" :=
  ⟨by decide, by decide,
    carry_over_raises_name_error "а в понедельник" (some "prices") (by decide) (by decide)⟩

/-! ## Stable descending sort — specification lemmas -/

theorem insertDesc_perm (key : α → ℚ) (x : α) (l : List α) :
    (insertDesc key x l).Perm (x :: l) := by
  induction l with
  | nil => exact List.Perm.refl _
  | cons y ys ih =>
      simp only [insertDesc]
      split
      · exact (ih.cons y).trans (List.Perm.swap x y ys)
      · exact List.Perm.refl _

theorem sortDesc_perm (key : α → ℚ) (l : List α) : (sortDesc key l).Perm l := by
  induction l with
  | nil => exact List.Perm.refl _
  | cons x xs ih => exact (insertDesc_perm key x (sortDesc key xs)).trans (ih.cons x)

theorem sortDesc_length (key : α → ℚ) (l : List α) :
    (sortDesc key l).length = l.length :=
  (sortDesc_perm key l).length_eq

theorem mem_sortDesc (key : α → ℚ) {x : α} {l : List α} :
    x ∈ sortDesc key l ↔ x ∈ l :=
  (sortDesc_perm key l).mem_iff

theorem pairwise_insertDesc (key : α → ℚ) (x : α) (l : List α)
    (h : l.Pairwise (fun a b => key b ≤ key a)) :
    (insertDesc key x l).Pairwise (fun a b => key b ≤ key a) := by
  induction l with
  | nil => simp [insertDesc]
  | cons y ys ih =>
      rw [List.pairwise_cons] at h
      obtain ⟨hy, hys⟩ := h
      simp only [insertDesc]
      split
      · rename_i hlt
        rw [List.pairwise_cons]
        refine ⟨?_, ih hys⟩
        intro z hz
        rcases List.mem_cons.mp ((insertDesc_perm key x ys).mem_iff.mp hz) with rfl | hz'
        · exact le_of_lt hlt
        · exact hy z hz'
      · rename_i hnlt
        rw [List.pairwise_cons]
        refine ⟨?_, List.pairwise_cons.mpr ⟨hy, hys⟩⟩
        intro z hz
        rcases List.mem_cons.mp hz with rfl | hz'
        · exact not_lt.mp hnlt
        · exact le_trans (hy z hz') (not_lt.mp hnlt)

theorem sortDesc_pairwise (key : α → ℚ) (l : List α) :
    (sortDesc key l).Pairwise (fun a b => key b ≤ key a) := by
  induction l with
  | nil => simp [sortDesc]
  | cons x xs ih => exact pairwise_insertDesc key x (sortDesc key xs) ih

theorem filter_insertDesc_pos (key : α → ℚ) (x : α) (l : List α) (k : ℚ) (hx : key x = k) :
    (insertDesc key x l).filter (fun y => decide (key y = k))
      = x :: l.filter (fun y => decide (key y = k)) := by
  induction l with
  | nil => simp [insertDesc, hx]
  | cons y ys ih =>
      simp only [insertDesc]
      split
      · rename_i hlt
        have hy : ¬ (key y = k) := by
          intro he
          rw [he, ← hx] at hlt
          exact lt_irrefl _ hlt
        rw [List.filter_cons, if_neg (by simp [hy]), ih,
          List.filter_cons, if_neg (by simp [hy])]
      · rw [List.filter_cons, if_pos (by simp [hx])]

theorem filter_insertDesc_neg (key : α → ℚ) (x : α) (l : List α) (k : ℚ) (hx : ¬ key x = k) :
    (insertDesc key x l).filter (fun y => decide (key y = k))
      = l.filter (fun y => decide (key y = k)) := by
  induction l with
  | nil => simp [insertDesc, hx]
  | cons y ys ih =>
      simp only [insertDesc]
      split
      · rw [List.filter_cons, List.filter_cons]
        by_cases hy : key y = k
        · rw [if_pos (by simp [hy]), if_pos (by simp [hy]), ih]
        · rw [if_neg (by simp [hy]), if_neg (by simp [hy]), ih]
      · rw [List.filter_cons, if_neg (by simp [hx])]

/-- Stability of the descending sort: the subsequence of entries with any
given key value is exactly the input's subsequence with that key. -/
theorem sortDesc_filter_key (key : α → ℚ) (l : List α) (k : ℚ) :
    (sortDesc key l).filter (fun y => decide (key y = k))
      = l.filter (fun y => decide (key y = k)) := by
  induction l with
  | nil => rfl
  | cons x xs ih =>
      by_cases hx : key x = k
      · rw [sortDesc, filter_insertDesc_pos key x _ k hx, ih,
          List.filter_cons, if_pos (by simp [hx])]
      · rw [sortDesc, filter_insertDesc_neg key x _ k hx, ih,
          List.filter_cons, if_neg (by simp [hx])]

/-! ## Adaptive thresholding (claim C1) -/

theorem countGe_cons (c : Cand) (cs : List Cand) (t : ℚ) :
    countGe (c :: cs) t = countGe cs t + (if t ≤ c.score then 1 else 0) := by
  by_cases h : t ≤ c.score <;> simp [countGe, List.filter_cons, h]

theorem countGe_anti (l : List Cand) {a b : ℚ} (hab : a ≤ b) :
    countGe l b ≤ countGe l a := by
  induction l with
  | nil => simp [countGe]
  | cons c cs ih =>
      rw [countGe_cons, countGe_cons]
      by_cases h1 : b ≤ c.score
      · rw [if_pos h1, if_pos (le_trans hab h1)]
        omega
      · rw [if_neg h1]
        by_cases h2 : a ≤ c.score
        · rw [if_pos h2]; omega
        · rw [if_neg h2]; omega

theorem chooseThreshold_some (l : List Cand) (ts : List ℚ) (t : ℚ)
    (h : chooseThreshold l ts = some t) :
    2 ≤ countGe l t ∧ countGe l t ≤ 6 := by
  induction ts with
  | nil => simp [chooseThreshold] at h
  | cons t0 ts ih =>
      simp only [chooseThreshold] at h
      split at h
      · rename_i hcond
        cases h
        exact hcond
      · exact ih h

theorem chooseThreshold_none_of_low (l : List Cand)
    (h : countGe l min_similarity < 2) (ts : List ℚ) :
    chooseThreshold l ts = none := by
  induction ts with
  | nil => rfl
  | cons t0 ts ih =>
      have hle : countGe l (max min_similarity t0) ≤ countGe l min_similarity :=
        countGe_anti l (le_max_left _ _)
      have hno : ¬ (2 ≤ countGe l (max min_similarity t0) ∧
          countGe l (max min_similarity t0) ≤ 6) := by
        rintro ⟨h2, _⟩
        omega
      simp only [chooseThreshold, hno, if_false]
      exact ih

theorem chooseThreshold_eq_find? (l : List Cand) (ts : List ℚ) :
    chooseThreshold l ts
      = (ts.map (fun t => max min_similarity t)).find?
          (fun t => decide (2 ≤ countGe l t) && decide (countGe l t ≤ 6)) := by
  induction ts with
  | nil => rfl
  | cons t0 ts ih =>
      simp only [chooseThreshold, List.map, List.find?]
      by_cases h1 : 2 ≤ countGe l (max min_similarity t0) <;>
        by_cases h2 : countGe l (max min_similarity t0) ≤ 6 <;>
          simp [h1, h2, ih]

/-- The amended threshold selection, stated the way the (corrected) claim
reads: try the clamped value `max(0.25, s)` of each distinct score in
descending order, then the hard floor, select the first keeping between
2 and 6 candidates, and fall back to the floor. -/
def chosen_threshold_spec (l : List Cand) : ℚ :=
  (((scoreLevels l ++ [min_similarity]).map (fun t => max min_similarity t)).find?
    (fun t => decide (2 ≤ countGe l t) && decide (countGe l t ≤ 6))).getD min_similarity

/-- Modelled from the claim's words: the same selection but trying each
distinct score unclamped, exactly as the claim describes it. -/
def claim_threshold_filter (l : List Cand) : List Cand :=
  if l.isEmpty then []
  else
    let chosen := ((scoreLevels l ++ [min_similarity]).find?
      (fun t => decide (2 ≤ countGe l t) && decide (countGe l t ≤ 6))).getD min_similarity
    l.filter (fun c => chosen ≤ c.score)

/-- C1 counterexample: with candidate scores `0.9` and `0.2`, the claim's
unclamped walk selects the threshold `0.2` (keeping both), while the code
clamps `0.2` up to `0.25`, finds no qualifying threshold, and keeps only
the `0.9` candidate. -/
theorem adaptive_threshold_clamp_cex :
    thresholdFilter
        [⟨mkRat 9 10, "a", ⟨"a.md", none, "a0"⟩, "a.md"⟩,
         ⟨mkRat 1 5, "b", ⟨"b.md", none, "b0"⟩, "b.md"⟩]
      = [⟨mkRat 9 10, "a", ⟨"a.md", none, "a0"⟩, "a.md"⟩] ∧
    claim_threshold_filter
        [⟨mkRat 9 10, "a", ⟨"a.md", none, "a0"⟩, "a.md"⟩,
         ⟨mkRat 1 5, "b", ⟨"b.md", none, "b0"⟩, "b.md"⟩]
      = [⟨mkRat 9 10, "a", ⟨"a.md", none, "a0"⟩, "a.md"⟩,
         ⟨mkRat 1 5, "b", ⟨"b.md", none, "b0"⟩, "b.md"⟩] ∧
    ([⟨mkRat 9 10, "a", ⟨"a.md", none, "a0"⟩, "a.md"⟩] :
        List Cand) ≠
      [⟨mkRat 9 10, "a", ⟨"a.md", none, "a0"⟩, "a.md"⟩,
       ⟨mkRat 1 5, "b", ⟨"b.md", none, "b0"⟩, "b.md"⟩] := by
  refine ⟨by decide, by decide, by decide⟩

theorem thresholdFilter_eq_spec (l : List Cand) :
    thresholdFilter l
      = if l.isEmpty then []
        else l.filter (fun c => chosen_threshold_spec l ≤ c.score) := by
  by_cases he : l.isEmpty
  · simp [thresholdFilter, he]
  · simp only [thresholdFilter, chosen_threshold_spec, he, if_false,
      chooseThreshold_eq_find?]

theorem thresholdFilter_low (l : List Cand) (h : countGe l min_similarity < 2) :
    thresholdFilter l = l.filter (fun c => min_similarity ≤ c.score) := by
  by_cases he : l.isEmpty
  · obtain rfl : l = [] := List.isEmpty_iff.mp he
    rfl
  · simp [thresholdFilter, he, chooseThreshold_none_of_low l h]

theorem thresholdFilter_len_ge2 (l : List Cand) (h : 2 ≤ countGe l min_similarity) :
    2 ≤ (thresholdFilter l).length := by
  have hne : ¬ l.isEmpty = true := by
    intro he
    obtain rfl : l = [] := List.isEmpty_iff.mp he
    simp [countGe] at h
  simp only [thresholdFilter, hne, if_false]
  cases hc : chooseThreshold l (scoreLevels l ++ [min_similarity]) with
  | some t =>
      have hs := (chooseThreshold_some l _ t hc).1
      simp only [hc, Option.getD_some]
      simpa [countGe] using hs
  | none =>
      simp only [hc, Option.getD_none]
      simpa [countGe] using h

theorem rerankStep_length (q : String) (pf : Option String) (l : List Cand) :
    (rerankStep q pf l).length = l.length := by
  simp [rerankStep, sortDesc_length, rerankScored]

/-- C1 (amended): the adaptive thresholding of `ask` tries the clamped
value `max(0.25, s)` of each distinct candidate score in descending
order followed by the hard floor `0.25`, selects the first threshold for
which between 2 and 6 candidates score at or above it, and falls back to
the floor when none qualifies; consequently, whenever at least 2
candidates score at or above `0.25`, the set handed onward (after the
cap of 6) contains between 2 and 6 candidates, and otherwise it contains
exactly the candidates scoring at or above `0.25`. -/
theorem adaptive_threshold_pipeline (q : String) (pf : Option String) (l : List Cand) :
    (thresholdFilter l
        = if l.isEmpty then []
          else l.filter (fun c => chosen_threshold_spec l ≤ c.score)) ∧
    (2 ≤ countGe l min_similarity →
      2 ≤ ((rerankStep q pf (thresholdFilter l)).take 6).length ∧
      ((rerankStep q pf (thresholdFilter l)).take 6).length ≤ 6) ∧
    (countGe l min_similarity < 2 →
      ((rerankStep q pf (thresholdFilter l)).take 6).map (·.cand)
        = l.filter (fun c => min_similarity ≤ c.score)) := by
  refine ⟨thresholdFilter_eq_spec l, ?_, ?_⟩
  · intro h
    have hlen : ((rerankStep q pf (thresholdFilter l)).take 6).length
        = min 6 (thresholdFilter l).length := by
      rw [List.length_take, rerankStep_length]
    have h2 := thresholdFilter_len_ge2 l h
    constructor
    · rw [hlen]; omega
    · rw [hlen]; omega
  · intro h
    have hfe := thresholdFilter_low l h
    have hlen : (thresholdFilter l).length < 2 := by
      rw [hfe]
      simpa [countGe] using h
    rw [hfe] at hlen ⊢
    rcases hcase : l.filter (fun c => min_similarity ≤ c.score) with _ | ⟨c, tail⟩
    · rw [hcase]
      rfl
    · rw [hcase] at hlen ⊢
      rcases tail with _ | ⟨d, tail2⟩
      · simp [rerankStep, rerankScored, sortDesc, insertDesc]
      · simp only [List.length_cons] at hlen
        omega

theorem adaptive_threshold_pipeline_witness :
    2 ≤ countGe
        [⟨mkRat 1 2, "a", ⟨"a.md", none, "a0"⟩, "a.md"⟩,
         ⟨mkRat 2 5, "b", ⟨"b.md", none, "b0"⟩, "b.md"⟩] min_similarity ∧
    2 ≤ ((rerankStep "q" none (thresholdFilter
        [⟨mkRat 1 2, "a", ⟨"a.md", none, "a0"⟩, "a.md"⟩,
         ⟨mkRat 2 5, "b", ⟨"b.md", none, "b0"⟩, "b.md"⟩])).take 6).length :=
  ⟨by decide,
   ((adaptive_threshold_pipeline "q" none
      [⟨mkRat 1 2, "a", ⟨"a.md", none, "a0"⟩, "a.md"⟩,
       ⟨mkRat 2 5, "b", ⟨"b.md", none, "b0"⟩, "b.md"⟩]).2.1 (by decide)).1⟩

/-! ## Lexical rerank (claim C6) -/

theorem rerankBonus_nonneg (pf : Option String) (c : Cand) : 0 ≤ rerankBonus pf c := by
  cases pf with
  | none => exact le_refl _
  | some f =>
      simp only [rerankBonus]
      split <;> norm_num

theorem rerankStep_mem_formula (q : String) (pf : Option String) (l : List Cand)
    {s : Scored} (hs : s ∈ rerankStep q pf l) :
    s.rs = (sharedTokens (tokenize_for_overlap q) (tokenize_for_overlap s.cand.text) : ℚ)
        + mkRat 1 10 * s.cand.score + rerankBonus pf s.cand ∧ s.cand ∈ l := by
  have hm : s ∈ rerankScored q pf l := (mem_sortDesc _).mp hs
  simp only [rerankScored, List.mem_map] at hm
  obtain ⟨c, hc, rfl⟩ := hm
  exact ⟨rfl, hc⟩

theorem pairwise_split {α : Type _} {R : α → α → Prop} {xs ys zs : List α} {a b : α}
    (h : (xs ++ a :: ys ++ b :: zs).Pairwise R) : R a b := by
  have h3 := (List.pairwise_append.mp h).2.2
  exact h3 a (List.mem_append.mpr (Or.inr (List.mem_cons_self _ _)))
    b (List.mem_cons_self _ _)

theorem mkRat_one_ten : (mkRat 1 10 : ℚ) = 1/10 := by
  rw [Rat.mkRat_eq_divInt, Rat.divInt_eq_div]
  norm_num

/-- C6: in the rerank step, every candidate's composite score equals the
number of shared tokens plus `0.1` times its vector score plus the
primary-file bonus (`1` exactly when its file is the intent's primary
file); consequently, for vector scores in the data model's `[-1, 1]`
range, a candidate with zero shared tokens and no primary bonus never
precedes a candidate with at least one shared token and equal-or-lower
vector score in the reranked order; and ties keep the original
vector-score order (the sort is stable). -/
theorem rerank_formula_dominance_stability (q : String) (pf : Option String)
    (l : List Cand) (hb : ∀ c ∈ l, -1 ≤ c.score ∧ c.score ≤ 1) :
    (∀ s ∈ rerankStep q pf l,
        s.rs = (sharedTokens (tokenize_for_overlap q) (tokenize_for_overlap s.cand.text) : ℚ)
          + mkRat 1 10 * s.cand.score + rerankBonus pf s.cand) ∧
    (∀ xs ys zs a b, rerankStep q pf l = xs ++ a :: ys ++ b :: zs →
        sharedTokens (tokenize_for_overlap q) (tokenize_for_overlap a.cand.text) = 0 →
        rerankBonus pf a.cand = 0 →
        1 ≤ sharedTokens (tokenize_for_overlap q) (tokenize_for_overlap b.cand.text) →
        b.cand.score ≤ a.cand.score → False) ∧
    (∀ k : ℚ, (rerankStep q pf l).filter (fun s => decide (s.rs = k))
        = (rerankScored q pf l).filter (fun s => decide (s.rs = k))) := by
  refine ⟨?_, ?_, ?_⟩
  · intro s hs
    exact (rerankStep_mem_formula q pf l hs).1
  · intro xs ys zs a b heq h0 hbon h1 hsc
    have hpw := sortDesc_pairwise (fun s : Scored => s.rs) (rerankScored q pf l)
    have hpw2 : (xs ++ a :: ys ++ b :: zs).Pairwise
        (fun s u : Scored => u.rs ≤ s.rs) := by
      rw [← heq]
      exact hpw
    have hab : b.rs ≤ a.rs :=
      pairwise_split (R := fun s u : Scored => u.rs ≤ s.rs) hpw2
    have ha : a ∈ rerankStep q pf l := by rw [heq]; simp
    have hbm : b ∈ rerankStep q pf l := by rw [heq]; simp
    obtain ⟨hfa, hca⟩ := rerankStep_mem_formula q pf l ha
    obtain ⟨hfb, hcb⟩ := rerankStep_mem_formula q pf l hbm
    have hsa := (hb _ hca).2
    have hsb := (hb _ hcb).1
    have hbb := rerankBonus_nonneg pf b.cand
    have hcast : (1 : ℚ)
        ≤ (sharedTokens (tokenize_for_overlap q) (tokenize_for_overlap b.cand.text) : ℚ) := by
      exact_mod_cast h1
    rw [hfa, hfb, h0, hbon] at hab
    rw [mkRat_one_ten] at hab
    push_cast at hab
    linarith
  · intro k
    exact sortDesc_filter_key (fun s : Scored => s.rs) (rerankScored q pf l) k

theorem rerank_formula_dominance_stability_witness :
    (rerankStep "q" none
        [⟨mkRat 1 2, "aa", ⟨"a.md", none, "a0"⟩, "a.md"⟩]).filter
          (fun s => decide (s.rs = 0))
      = (rerankScored "q" none
        [⟨mkRat 1 2, "aa", ⟨"a.md", none, "a0"⟩, "a.md"⟩]).filter
          (fun s => decide (s.rs = 0)) :=
  (rerank_formula_dominance_stability "q" none
    [⟨mkRat 1 2, "aa", ⟨"a.md", none, "a0"⟩, "a.md"⟩] (by decide)).2.2 0

/-! ## Chunker heading assignment (claim C7) -/

theorem chunkLoop_eq_map_starts (fp : String) (hs : List (Nat × String))
    (text : List Char) (chunkSize overlap : Nat) :
    ∀ fuel start idx,
      chunkLoop fp hs text chunkSize overlap fuel start idx
        = (chunkLoopStarts fp hs text chunkSize overlap fuel start idx).map Prod.snd := by
  intro fuel
  induction fuel with
  | zero => intro start idx; rfl
  | succ fuel ih =>
      intro start idx
      simp only [chunkLoop, chunkLoopStarts]
      split
      · split
        · rfl
        · rw [List.map_cons, ih]
      · rfl

theorem chunkLoopStarts_heading (fp : String) (hs : List (Nat × String))
    (text : List Char) (chunkSize overlap : Nat) :
    ∀ fuel start idx p,
      p ∈ chunkLoopStarts fp hs text chunkSize overlap fuel start idx →
      p.2.heading = heading_for_offset hs p.1 := by
  intro fuel
  induction fuel with
  | zero => intro start idx p hp; cases hp
  | succ fuel ih =>
      intro start idx p hp
      simp only [chunkLoopStarts] at hp
      split at hp
      · split at hp
        · rcases List.mem_singleton.mp hp with rfl
          rfl
        · rcases List.mem_cons.mp hp with rfl | hp'
          · rfl
          · exact ih _ _ p hp'
      · cases hp

theorem extractHeadingsAux_bound (lines : List (List Char)) :
    ∀ off p, p ∈ extractHeadingsAux off lines → off ≤ p.1 := by
  induction lines with
  | nil => intro off p hp; cases hp
  | cons line rest ih =>
      intro off p hp
      simp only [extractHeadingsAux] at hp
      rcases List.mem_append.mp hp with h1 | h2
      · split at h1
        · rename_i stripped _
          split at h1
          · cases h1
          · rcases List.mem_singleton.mp h1 with rfl
            exact le_refl _
        · cases h1
      · have := ih (off + line.length + 1) p h2
        omega

theorem extractHeadingsAux_pairwise (lines : List (List Char)) :
    ∀ off, (extractHeadingsAux off lines).Pairwise (fun p q => p.1 < q.1) := by
  induction lines with
  | nil => intro off; exact List.Pairwise.nil
  | cons line rest ih =>
      intro off
      simp only [extractHeadingsAux]
      apply List.pairwise_append.mpr
      refine ⟨?_, ih _, ?_⟩
      · split
        · split
          · exact List.Pairwise.nil
          · exact List.pairwise_singleton _ _
        · exact List.Pairwise.nil
      · intro p hp q hq
        have hple : p.1 = off := by
          split at hp
          · split at hp
            · cases hp
            · rcases List.mem_singleton.mp hp with rfl
              rfl
          · cases hp
        have hq1 := extractHeadingsAux_bound rest _ q hq
        omega

theorem extract_headings_pairwise (markdown : String) :
    (extract_headings markdown).Pairwise (fun p q => p.1 < q.1) :=
  extractHeadingsAux_pairwise _ 0

theorem heading_for_offset_eq_last (hs : List (Nat × String)) (off : Nat)
    (hsorted : hs.Pairwise (fun p q => p.1 < q.1)) :
    heading_for_offset hs off
      = ((hs.filter (fun h => decide (h.1 ≤ off))).getLast?).map Prod.snd := by
  induction hs with
  | nil => rfl
  | cons h0 rest ih =>
      obtain ⟨pos, title⟩ := h0
      rw [List.pairwise_cons] at hsorted
      obtain ⟨hhead, hrest⟩ := hsorted
      by_cases hle : pos ≤ off
      · rw [List.filter_cons, if_pos (by simpa using hle)]
        simp only [heading_for_offset, if_pos hle, ih hrest]
        cases hfr : rest.filter (fun h => decide (h.1 ≤ off)) with
        | nil => rfl
        | cons q qs =>
            obtain ⟨z, hz⟩ : ∃ z, (q :: qs).getLast? = some z :=
              Option.isSome_iff_exists.mp (by simp [List.getLast?_isSome])
            rw [List.getLast?_cons_cons, hz]
            rfl
      · simp only [heading_for_offset, if_neg hle]
        rw [List.filter_cons, if_neg (by simpa using hle)]
        have hnil : rest.filter (fun h => decide (h.1 ≤ off)) = [] := by
          apply List.filter_eq_nil_iff.mpr
          intro q hq
          have := hhead q hq
          simp only [decide_eq_true_eq]
          omega
        rw [hnil]
        rfl

/-- C7: every chunk produced by `chunk_markdown` carries as heading the
last markdown heading of the document whose character offset is at most
the chunk's start offset (`none` when no heading precedes the chunk
start), where `chunk_markdown` is the start-forgetting projection of the
instrumented walk `chunk_markdown_starts`. -/
theorem chunk_heading_last_preceding (fp markdown : String) (chunkSize overlap : Nat) :
    (∀ p ∈ chunk_markdown_starts fp markdown chunkSize overlap,
        p.2.heading = (((extract_headings markdown).filter
          (fun h => decide (h.1 ≤ p.1))).getLast?).map Prod.snd) ∧
    chunk_markdown fp markdown chunkSize overlap
      = (chunk_markdown_starts fp markdown chunkSize overlap).map Prod.snd := by
  constructor
  · intro p hp
    simp only [chunk_markdown_starts] at hp
    split at hp
    · cases hp
    · have h1 := chunkLoopStarts_heading fp (extract_headings markdown)
        (trimChars markdown.data) chunkSize overlap _ _ _ p hp
      rw [h1, heading_for_offset_eq_last _ _ (extract_headings_pairwise markdown)]
  · simp only [chunk_markdown, chunk_markdown_starts]
    split
    · rfl
    · exact chunkLoop_eq_map_starts fp (extract_headings markdown)
        (trimChars markdown.data) chunkSize overlap _ _ _

theorem chunk_heading_last_preceding_witness :
    ((0, (⟨"f.md::chunk::0", "f.md", some "T", "# T\nabc"⟩ : Chunk)) : Nat × Chunk).2.heading
      = (((extract_headings "# T\nabc").filter
          (fun h => decide (h.1 ≤
            ((0, (⟨"f.md::chunk::0", "f.md", some "T", "# T\nabc"⟩ : Chunk)) : Nat × Chunk).1))).getLast?).map
          Prod.snd :=
  (chunk_heading_last_preceding "f.md" "# T\nabc" 900 150).1
    (0, ⟨"f.md::chunk::0", "f.md", some "T", "# T\nabc"⟩) (by decide)

/-! ## Deep-merge idempotence (claim C9) -/

mutual
/-- `absorbsVal old v`: the current value `old` at some key already
contains everything merging the patch value `v` could add. -/
def absorbsVal (old : Option JVal) : JVal → Bool
  | .vdict pd =>
      match old with
      | some (.vdict wd) => absorbs wd pd
      | _ => false
  | .vnull => decide (old = some .vnull)
  | .vbool b => decide (old = some (.vbool b))
  | .vint n => decide (old = some (.vint n))
  | .vstr s => decide (old = some (.vstr s))
  | .varr a => decide (old = some (.varr a))
termination_by v => v.size
decreasing_by all_goals (simp [JVal.size, JObj.size]; try omega)
/-- `absorbs m p`: merging the patch `p` into `m` changes nothing. -/
def absorbs : JObj → JObj → Bool
  | _, .onil => true
  | m, .ocons k v rest => absorbsVal (alget m k) v && absorbs m rest
termination_by _ p => p.size
decreasing_by all_goals (simp [JVal.size, JObj.size]; try omega)
end

theorem alget_setKey_self : ∀ (m : JObj) (k : String) (v : JVal),
    alget (setKey m k v) k = some v
  | .onil, k, v => by simp [setKey, alget]
  | .ocons k' w r, k, v => by
      simp only [setKey]
      by_cases h : k' = k
      · subst h
        simp [alget]
      · simp [alget, h, alget_setKey_self r k v]

theorem alget_setKey_ne : ∀ (m : JObj) (key key' : String) (v : JVal),
    key ≠ key' → alget (setKey m key v) key' = alget m key'
  | .onil, key, key', v, h => by simp [setKey, alget, h]
  | .ocons k' w r, key, key', v, h => by
      simp only [setKey]
      by_cases hk : k' = key
      · subst hk
        simp [alget, h]
      · have h' : key' ≠ key := fun he => h he.symm
        by_cases hk2 : k' = key' <;>
          simp [setKey, alget, hk, hk2, h', alget_setKey_ne r key key' v h]

theorem setKey_eq_self : ∀ (m : JObj) (k : String) (v : JVal),
    alget m k = some v → setKey m k v = m
  | .onil, k, v, h => by simp [alget] at h
  | .ocons k' w r, k, v, h => by
      simp only [alget] at h
      simp only [setKey]
      by_cases hk : k' = k
      · rw [if_pos hk] at h ⊢
        cases h
        rfl
      · rw [if_neg hk] at h ⊢
        rw [setKey_eq_self r k v h]

theorem keymem_false_head {k' k : String} {v : JVal} {rest : JObj}
    (h : keymem (.ocons k' v rest) k = false) :
    k' ≠ k ∧ keymem rest k = false := by
  simp only [keymem, Bool.or_eq_false_iff, decide_eq_false_iff_not] at h
  exact h

theorem alget_deepMerge_not_mem : ∀ (p m : JObj) (k : String),
    keymem p k = false → alget (deepMerge m p) k = alget m k
  | .onil, m, k, _ => by simp [deepMerge]
  | .ocons k' v rest, m, k, h => by
      obtain ⟨hne, hrest⟩ := keymem_false_head h
      simp only [deepMerge]
      rw [alget_deepMerge_not_mem rest _ k hrest, alget_setKey_ne _ _ _ _ hne]

theorem absorbs_congr : ∀ (p m m' : JObj),
    (∀ k, keymem p k = true → alget m k = alget m' k) → absorbs m p = absorbs m' p
  | .onil, _, _, _ => by simp [absorbs]
  | .ocons k v rest, m, m', h => by
      simp only [absorbs]
      rw [h k (by simp [keymem]),
        absorbs_congr rest m m' (fun k' hk' => h k' (by simp [keymem, hk']))]

theorem wfb_head {k : String} {v : JVal} {rest : JObj}
    (h : JObj.wfb (.ocons k v rest) = true) :
    keymem rest k = false ∧ JVal.wfb v = true ∧ JObj.wfb rest = true := by
  simp only [JObj.wfb, Bool.and_eq_true, Bool.not_eq_true'] at h
  exact ⟨h.1.1, h.1.2, h.2⟩

mutual
theorem absorbsVal_self : ∀ (v : JVal), JVal.wfb v = true → absorbsVal (some v) v = true
  | .vdict pd, h => by
      simp only [absorbsVal]
      exact absorbs_self pd (by simpa [JVal.wfb] using h)
  | .vnull, _ => by simp [absorbsVal]
  | .vbool b, _ => by simp [absorbsVal]
  | .vint n, _ => by simp [absorbsVal]
  | .vstr s, _ => by simp [absorbsVal]
  | .varr a, _ => by simp [absorbsVal]
termination_by v => JVal.size v
decreasing_by all_goals (simp [JVal.size, JObj.size]; try omega)
theorem absorbs_self : ∀ (d : JObj), JObj.wfb d = true → absorbs d d = true
  | .onil, _ => by simp [absorbs]
  | .ocons k v r, h => by
      obtain ⟨hmem, hv, hr⟩ := wfb_head h
      simp only [absorbs, Bool.and_eq_true]
      constructor
      · have hk : alget (.ocons k v r) k = some v := by simp [alget]
        rw [hk]
        exact absorbsVal_self v hv
      · have hcg : absorbs (.ocons k v r) r = absorbs r r := by
          apply absorbs_congr
          intro k' hk'
          have hne : ¬ (k = k') := by
            intro he
            subst he
            rw [hk'] at hmem
            cases hmem
          simp [alget, hne]
        rw [hcg]
        exact absorbs_self r hr
termination_by d => JObj.size d
decreasing_by all_goals (simp [JVal.size, JObj.size]; try omega)
end

theorem mergeVal_eq_of_ne_dict : ∀ (old : Option JVal) (v : JVal),
    (∀ d, v ≠ .vdict d) → mergeVal old v = v := by
  intro old v hv
  cases v with
  | vdict d => exact absurd rfl (hv d)
  | vnull =>
      cases old with
      | none => simp [mergeVal]
      | some w => cases w <;> simp [mergeVal]
  | vbool b =>
      cases old with
      | none => simp [mergeVal]
      | some w => cases w <;> simp [mergeVal]
  | vint n =>
      cases old with
      | none => simp [mergeVal]
      | some w => cases w <;> simp [mergeVal]
  | vstr t =>
      cases old with
      | none => simp [mergeVal]
      | some w => cases w <;> simp [mergeVal]
  | varr a =>
      cases old with
      | none => simp [mergeVal]
      | some w => cases w <;> simp [mergeVal]

mutual
theorem absorbsVal_merge : ∀ (v : JVal) (old : Option JVal),
    JVal.wfb v = true → absorbsVal (some (mergeVal old v)) v = true
  | .vdict pd, old, h => by
      have hwf : JObj.wfb pd = true := by simpa [JVal.wfb] using h
      match old with
      | some (.vdict md) =>
          simp only [mergeVal, absorbsVal]
          exact absorbs_deepMerge pd md hwf
      | some .vnull | some (.vbool _) | some (.vint _) | some (.vstr _)
      | some (.varr _) | none =>
          simp only [mergeVal, absorbsVal]
          exact absorbs_self pd hwf
  | .vnull, old, _ => by
      rw [mergeVal_eq_of_ne_dict old _ (by intro d hd; cases hd)]
      simp [absorbsVal]
  | .vbool b, old, _ => by
      rw [mergeVal_eq_of_ne_dict old _ (by intro d hd; cases hd)]
      simp [absorbsVal]
  | .vint n, old, _ => by
      rw [mergeVal_eq_of_ne_dict old _ (by intro d hd; cases hd)]
      simp [absorbsVal]
  | .vstr s, old, _ => by
      rw [mergeVal_eq_of_ne_dict old _ (by intro d hd; cases hd)]
      simp [absorbsVal]
  | .varr a, old, _ => by
      rw [mergeVal_eq_of_ne_dict old _ (by intro d hd; cases hd)]
      simp [absorbsVal]
termination_by v _ => JVal.size v
decreasing_by all_goals (simp [JVal.size, JObj.size]; try omega)
theorem absorbs_deepMerge : ∀ (p m : JObj), JObj.wfb p = true →
    absorbs (deepMerge m p) p = true
  | .onil, m, _ => by simp [absorbs]
  | .ocons k v rest, m, h => by
      obtain ⟨hmem, hv, hrest⟩ := wfb_head h
      simp only [deepMerge, absorbs, Bool.and_eq_true]
      constructor
      · rw [alget_deepMerge_not_mem rest _ k hmem, alget_setKey_self]
        exact absorbsVal_merge v (alget m k) hv
      · exact absorbs_deepMerge rest _ hrest
termination_by p _ => JObj.size p
decreasing_by all_goals (simp [JVal.size, JObj.size]; try omega)
end

mutual
theorem mergeVal_absorbed : ∀ (v : JVal) (old : Option JVal),
    absorbsVal old v = true → old = some (mergeVal old v)
  | .vdict pd, old, h => by
      match old with
      | some (.vdict wd) =>
          simp only [absorbsVal] at h
          simp only [mergeVal]
          rw [deepMerge_absorbed pd wd h]
      | some .vnull | some (.vbool _) | some (.vint _) | some (.vstr _)
      | some (.varr _) | none =>
          simp [absorbsVal] at h
  | .vnull, old, h => by
      simp only [absorbsVal, decide_eq_true_eq] at h
      subst h
      rw [mergeVal_eq_of_ne_dict _ _ (by intro d hd; cases hd)]
  | .vbool b, old, h => by
      simp only [absorbsVal, decide_eq_true_eq] at h
      subst h
      rw [mergeVal_eq_of_ne_dict _ _ (by intro d hd; cases hd)]
  | .vint n, old, h => by
      simp only [absorbsVal, decide_eq_true_eq] at h
      subst h
      rw [mergeVal_eq_of_ne_dict _ _ (by intro d hd; cases hd)]
  | .vstr s, old, h => by
      simp only [absorbsVal, decide_eq_true_eq] at h
      subst h
      rw [mergeVal_eq_of_ne_dict _ _ (by intro d hd; cases hd)]
  | .varr a, old, h => by
      simp only [absorbsVal, decide_eq_true_eq] at h
      subst h
      rw [mergeVal_eq_of_ne_dict _ _ (by intro d hd; cases hd)]
termination_by v _ => JVal.size v
decreasing_by all_goals (simp [JVal.size, JObj.size]; try omega)
theorem deepMerge_absorbed : ∀ (p m : JObj), absorbs m p = true → deepMerge m p = m
  | .onil, m, _ => by simp [deepMerge]
  | .ocons k v rest, m, h => by
      simp only [absorbs, Bool.and_eq_true] at h
      have h1 := mergeVal_absorbed v (alget m k) h.1
      simp only [deepMerge]
      rw [setKey_eq_self m k _ h1]
      exact deepMerge_absorbed rest m h.2
termination_by p _ => JObj.size p
decreasing_by all_goals (simp [JVal.size, JObj.size]; try omega)
end

/-- C9: for every profile `p` and patch `q` (Python dicts, so with unique
keys at every level, captured by `JObj.wfb q`), the deep-merge patch
operation of `memory_store.py` is idempotent: merging `q` into the
result of merging `q` into `p` yields the same profile as merging `q`
once. -/
theorem deep_merge_idempotent (p q : JObj) (h : JObj.wfb q = true) :
    deepMerge (deepMerge p q) q = deepMerge p q :=
  deepMerge_absorbed q (deepMerge p q) (absorbs_deepMerge q p h)

theorem deep_merge_idempotent_witness :
    deepMerge
        (deepMerge
          (.ocons "name" (.vstr "Ann")
            (.ocons "preferences" (.vdict (.ocons "likes" (.varr .anil) .onil)) .onil))
          (.ocons "preferences" (.vdict (.ocons "likes" (.varr (.acons (.vstr "vr") .anil)) .onil))
            (.ocons "visit_date" (.vstr "2026-01-01") .onil)))
        (.ocons "preferences" (.vdict (.ocons "likes" (.varr (.acons (.vstr "vr") .anil)) .onil))
          (.ocons "visit_date" (.vstr "2026-01-01") .onil))
      = deepMerge
        (.ocons "name" (.vstr "Ann")
          (.ocons "preferences" (.vdict (.ocons "likes" (.varr .anil) .onil)) .onil))
        (.ocons "preferences" (.vdict (.ocons "likes" (.varr (.acons (.vstr "vr") .anil)) .onil))
          (.ocons "visit_date" (.vstr "2026-01-01") .onil)) :=
  deep_merge_idempotent _ _ (by decide)

/-! ## The `/ask` low-confidence branch (claim C2) -/

theorem buildCandidates_score {hits : List Hit} {c : Cand}
    (hc : c ∈ buildCandidates hits) : ∃ h ∈ hits, c.score = h.score := by
  simp only [buildCandidates, List.mem_filterMap] at hc
  obtain ⟨a, ha, hfa⟩ := hc
  refine ⟨a, ha, ?_⟩
  cases hta : a.text with
  | none =>
      cases hma : a.metadata with
      | none => rw [hta, hma] at hfa; cases hfa
      | some m => rw [hta, hma] at hfa; cases hfa
  | some t =>
      cases hma : a.metadata with
      | none => rw [hta, hma] at hfa; cases hfa
      | some m =>
          rw [hta, hma] at hfa
          have hfa2 : (if t = "" then none
              else some (⟨a.score, t, m, m.file_path⟩ : Cand)) = some c := hfa
          by_cases ht : t = ""
          · rw [if_pos ht] at hfa2; cases hfa2
          · rw [if_neg ht] at hfa2
            cases hfa2
            rfl

theorem thresholdFilter_all_low (l : List Cand)
    (h : ∀ c ∈ l, c.score < min_similarity) : thresholdFilter l = [] := by
  have hcount : countGe l min_similarity = 0 := by
    simp only [countGe, List.length_eq_zero]
    apply List.filter_eq_nil_iff.mpr
    intro c hc
    simpa using not_le.mpr (h c hc)
  rw [thresholdFilter_low l (by omega)]
  apply List.filter_eq_nil_iff.mpr
  intro c hc
  simpa using not_le.mpr (h c hc)

theorem read_contacts_empty_of_no_chunk (fs : String → Option String)
    (h : (build_context_chunks_from_files fs [contactsPath]).isEmpty = true) :
    read_contacts fs = "" := by
  cases hfs : fs contactsPath with
  | none => simp [read_contacts, hfs]
  | some raw =>
      by_cases hs : pyStrip raw = ""
      · simp [read_contacts, hfs, hs]
      · simp [build_context_chunks_from_files, hfs, hs] at h

/-- C2 counterexample: a general question with no retrieval candidates at
all, against a corpus where the contacts document is readable: the
router-fallback branch builds the contacts document as context and the
answer generator IS called, contradicting the claim that this path never
calls the generator (and returns the terminal fallback). -/
theorem ask_low_confidence_cex :
    app_detect_intent "zz ww" = "general" ∧
    (JuCity.ask true
      (fun p => if p = "kb/nn/core/contacts.md" then some "Тел: 123" else none)
      (fun ctx _ => ("GEN", ctx.map (fun c => c.metadata.file_path)))
      "zz ww" []).map (fun o => (o.generatorCalled, o.sources))
      = .ok (true, ["kb/nn/core/contacts.md"]) := by
  refine ⟨by decide, by decide⟩

/-- C2 (amended): for every general-intent question whose retrieval hits
all score below `0.25`, the `/ask` pipeline takes the router-fallback
branch: when the contacts document is readable and non-blank it becomes
the sole context and the generator IS called; failing that, the best raw
candidate (if any) becomes the context and the generator is called;
only when neither exists does the pipeline return the terminal fallback,
whose message is then the bare ask-a-human text without any contacts
content and whose source list is empty. -/
theorem ask_low_confidence_characterisation (fs : String → Option String)
    (gen : List CtxChunk → String → String × List String) (q : String) (hits : List Hit)
    (hgen : app_detect_intent q = "general")
    (hlow : ∀ h ∈ hits, h.score < min_similarity) :
    ask true fs gen q hits
      = .ok (
          if (build_context_chunks_from_files fs [contactsPath]).isEmpty then
            match sortDesc (fun c : Cand => c.score) (buildCandidates hits) with
            | [] => ⟨fallbackBase, [], false, []⟩
            | best :: _ =>
                ⟨(gen [(⟨best.text, best.metadata⟩ : CtxChunk)] q).1,
                 (gen [(⟨best.text, best.metadata⟩ : CtxChunk)] q).2, true,
                 [(⟨best.text, best.metadata⟩ : CtxChunk)]⟩
          else
            ⟨(gen (build_context_chunks_from_files fs [contactsPath]) q).1,
             (gen (build_context_chunks_from_files fs [contactsPath]) q).2, true,
             build_context_chunks_from_files fs [contactsPath]⟩) := by
  have hall : ∀ c ∈ sortDesc (fun c : Cand => c.score) (buildCandidates hits),
      c.score < min_similarity := by
    intro c hc
    obtain ⟨h, hh, he⟩ := buildCandidates_score ((mem_sortDesc _).mp hc)
    rw [he]
    exact hlow h hh
  have hempty : thresholdFilter (sortDesc (fun c : Cand => c.score) (buildCandidates hits))
      = [] := thresholdFilter_all_low _ hall
  simp only [ask, hgen, hempty, Bool.not_true, rerankStep, rerankScored, sortDesc,
    List.map_nil, List.take_nil, List.length_nil, ne_eq]
  norm_num
  by_cases hctx : build_context_chunks_from_files fs [contactsPath] = []
  · cases hcand : sortDesc (fun c : Cand => c.score) (buildCandidates hits) with
    | nil =>
        have hrc : read_contacts fs = "" :=
          read_contacts_empty_of_no_chunk fs (by simp [hctx])
        simp [hctx, hcand, hrc, fallback_answer_with_contacts]
    | cons best rest =>
        simp [hctx, hcand]
  · simp [hctx]

theorem ask_low_confidence_witness :
    app_detect_intent "мм нн" = "general" ∧
    ask true (fun _ => none)
      (fun ctx _ => ("G", ctx.map (fun c => c.metadata.file_path))) "мм нн" []
      = .ok ⟨fallbackBase, [], false, []⟩ :=
  ⟨by decide,
   by
    have h := ask_low_confidence_characterisation (fun _ => none)
      (fun ctx _ => ("G", ctx.map (fun c => c.metadata.file_path))) "мм нн" []
      (by decide) (by intro h hh; cases hh)
    rw [h]
    rfl⟩

/-! ## Mandatory contacts in assembled context (claim C3) -/

unseal Rat.mul Rat.add in
/-- C3 counterexample: a general question whose two retrieval candidates
both clear the threshold, against a corpus where the contacts document
exists and is non-blank; the `/ask` endpoint passes exactly the two
retrieved chunks to the generator — the contacts document is not
appended, so this generation call does not receive it. -/
theorem ask_context_without_contacts_cex :
    (JuCity.ask true
      (fun p => if p = "kb/nn/core/contacts.md" then some "Тел: 123" else none)
      (fun ctx _ => ("GEN", ctx.map (fun c => c.metadata.file_path)))
      "zz ww"
      [⟨mkRat 1 2, some "aa", some ⟨"a.md", none, "a0"⟩⟩,
       ⟨mkRat 2 5, some "bb", some ⟨"b.md", none, "b0"⟩⟩]).map
        (fun o => (o.generatorCalled, o.contextUsed.map (fun c => c.metadata.file_path)))
      = .ok (true, ["a.md", "b.md"]) ∧
    ("kb/nn/core/contacts.md" ∈ (["a.md", "b.md"] : List String)) = False := by
  refine ⟨by decide, by simp⟩

/-- C3 (amended): it is `Answerer.answer` (in `rag/answerer.py`), not the
`/ask` endpoint, that appends the mandatory contacts document: whenever
the contacts file is readable and non-blank, every context assembled by
`Answerer.answer` — and hence every generation call it makes — contains
the contacts document among its chunks. -/
theorem answerer_context_contains_contacts (fs : String → Option String)
    (gen : List AnsChunk → String → String × List String)
    (hits : List Hit) (q : String) (raw : String)
    (hfs : fs contactsPath = some raw) (hne : pyStrip raw ≠ "") :
    ((answerer_answer fs gen hits q).2).any (fun c => c.file_path = contactsPath)
      = true := by
  simp only [answerer_answer, answerer_context, hfs]
  rw [if_neg hne]
  by_cases hb : (hits.filterMap (fun h =>
      let fp := match h.metadata with | none => "" | some m => m.file_path
      let heading := match h.metadata with | none => none | some m => m.heading
      let cid := match h.metadata with | none => "" | some m => m.chunk_id
      let t := match h.text with | none => "" | some t => t
      if fp = "" ∨ t = "" then none
      else some (⟨fp, heading, cid, t⟩ : AnsChunk))).any
        (fun c => c.file_path = contactsPath)
  · rw [if_pos hb]
    exact hb
  · rw [if_neg hb]
    simp [List.any_append]

theorem answerer_context_contains_contacts_witness :
    ((answerer_answer
        (fun p => if p = "kb/nn/core/contacts.md" then some "Тел: 123" else none)
        (fun ctx _ => ("G", ctx.map (fun c => c.file_path))) [] "где вы").2).any
      (fun c => c.file_path = contactsPath) = true :=
  answerer_context_contains_contacts
    (fun p => if p = "kb/nn/core/contacts.md" then some "Тел: 123" else none)
    (fun ctx _ => ("G", ctx.map (fun c => c.file_path))) [] "где вы" "Тел: 123"
    (by decide) (by decide)

end JuCity
